import Mathlib

/-
Formal model of the image-translator core (translator.py, font_manager.py,
inpainter.py, text_renderer.py, pipeline.py).

External services (translation backend, PIL font loading and drawing, image
codecs) are modelled as function parameters; a call that may raise a Python
exception is modelled as an `Option`-valued function, with `none` standing
for the raised exception.  Pure algorithmic code (the whitespace guard, the
font-key dispatch, the binary search over font sizes, the mask construction)
is translated directly from the source.
-/

namespace Translator

/-! ## Translation engine (core/translator.py) -/

/-- Models the Python guard `not text or not text.strip()` in
`TranslationEngine.translate`: true iff the string is empty or consists only
of whitespace characters. -/
def pyStrBlank (s : String) : Bool :=
  s.toList.all (fun c => c.isWhitespace)

/-- `TranslationEngine.translate` (translator.py:61-85).  `backend t` models
`self.translator.translate(t)` (the `lru_cache` wrapper is semantically
transparent for a deterministic backend); `none` models a raised exception,
which the source catches, returning the original text. -/
def translate (backend : String → Option String) (text : String) : String :=
  if pyStrBlank text then text
  else
    match backend text with
    | some t => t
    | none => text

/-- `TranslationEngine.translate_batch` (translator.py:87-97):
`[self.translate(text) for text in texts]`. -/
def translate_batch (backend : String → Option String) (texts : List String) : List String :=
  texts.map (translate backend)

/-! ## Font manager (core/font_manager.py) -/

/-- `FontManager.FONTS['pingfang_sc']` and `['pingfang_tc']`. -/
def pingfangPath : String := "/System/Library/Fonts/PingFang.ttc"

/-- `FontManager.FONTS['heiti']`. -/
def heitiPath : String := "/System/Library/Fonts/STHeiti Medium.ttc"

/-- `FontManager.FONTS['songti']`. -/
def songtiPath : String := "/Library/Fonts/Songti.ttc"

/-- `FontManager.FONTS['kaiti']`. -/
def kaitiPath : String := "/System/Library/Fonts/Kaiti.ttc"

/-- The `FontManager.FONTS` dictionary (font_manager.py:17-23). -/
def FONTS : List (String × String) :=
  [("pingfang_sc", pingfangPath), ("pingfang_tc", pingfangPath),
   ("heiti", heitiPath), ("songti", songtiPath), ("kaiti", kaitiPath)]

/-- The `font_key` selection in `FontManager.get_font_path`
(font_manager.py:46-53). -/
def fontKeyFor (style : String) (simplified : Bool) : String :=
  if style = "modern" ∨ style = "sans" then
    if simplified then "pingfang_sc" else "pingfang_tc"
  else if style = "serif" then "songti"
  else if style = "script" then "kaiti"
  else "pingfang_sc"

/-- `font_path = self.FONTS.get(font_key, self.FONTS['heiti'])`
(font_manager.py:55). -/
def resolvedFontPath (style : String) (simplified : Bool) : String :=
  (FONTS.lookup (fontKeyFor style simplified)).getD heitiPath

/-- `FontManager.get_font_path` (font_manager.py:35-62).  `pathExistsF`
models `Path(font_path).exists()`; a missing file falls back to the
`'heiti'` path. -/
def get_font_path (pathExistsF : String → Bool) (style : String) (simplified : Bool) : String :=
  if pathExistsF (resolvedFontPath style simplified) then resolvedFontPath style simplified
  else heitiPath

/-- The classification `any('一' <= char <= '鿿' for char in text)`
in `TextRenderer.render_text` (text_renderer.py:60). -/
def containsHan (t : String) : Bool :=
  t.toList.any (fun c => decide (0x4E00 ≤ c.toNat ∧ c.toNat ≤ 0x9FFF))

/-- The renderer's font resolution (text_renderer.py:60-61):
`self.font_manager.get_font_path(style, simplified=is_chinese)`. -/
def renderFontPath (pathExistsF : String → Bool) (style : String) (text : String) : String :=
  get_font_path pathExistsF style (containsHan text)

/-! ## Font-size fitter (font_manager.py:89-132)

`measure s` models loading the font at size `s` and measuring
`font.getbbox(text)`, yielding `(text_width, text_height)`; it is the only
part of an iteration that touches the font, so each loop iteration performs
exactly one `measure` call, which the embedding counts in the second
component of `fitLoop`. -/

/-- The fit test `text_width <= max_width and text_height <= max_height`
(font_manager.py:126) for the candidate size `s`. -/
def fitsAt (measure : Int → Int × Int) (maxW maxH s : Int) : Prop :=
  (measure s).1 ≤ maxW ∧ (measure s).2 ≤ maxH

instance (measure : Int → Int × Int) (maxW maxH s : Int) :
    Decidable (fitsAt measure maxW maxH s) := by
  unfold fitsAt
  infer_instance

/-- The `while left <= right` loop of `FontManager.find_optimal_font_size`
(font_manager.py:116-130), returning the final `optimal_size` together with
the number of measurement calls performed.  `(l + r) / 2` is floor division,
as in Python. -/
def fitLoop (measure : Int → Int × Int) (maxW maxH l r best : Int) : Int × Nat :=
  if h : l ≤ r then
    if fitsAt measure maxW maxH ((l + r) / 2) then
      let res := fitLoop measure maxW maxH ((l + r) / 2 + 1) r ((l + r) / 2)
      (res.1, res.2 + 1)
    else
      let res := fitLoop measure maxW maxH l ((l + r) / 2 - 1) best
      (res.1, res.2 + 1)
  else (best, 0)
termination_by (r + 1 - l).toNat
decreasing_by all_goals omega

/-- `FontManager.find_optimal_font_size` (font_manager.py:89-132):
`left, right = min_size, max_size`, `optimal_size = min_size`, then the
binary-search loop. -/
def find_optimal_font_size (measure : Int → Int × Int) (maxW maxH minS maxS : Int) : Int :=
  (fitLoop measure maxW maxH minS maxS minS).1

/-- Number of font-load-and-measure calls `find_optimal_font_size` performs
(one per loop iteration, font_manager.py:118-123). -/
def fitMeasureCalls (measure : Int → Int × Int) (maxW maxH minS maxS : Int) : Nat :=
  (fitLoop measure maxW maxH minS maxS minS).2

/-! ## Mask builder and inpainter (core/inpainter.py)

A mask is modelled as a total function `Int → Int → Nat`; pixels of the
`(H, W)` image are the coordinates `0 ≤ i < H`, `0 ≤ j < W`, and the
construction never writes outside them, so out-of-range coordinates stay
`0`, matching the zero contribution of out-of-image samples in OpenCV's
border handling for dilation. -/

/-- Pixel membership in the rectangle filled by
`cv2.rectangle(mask, (x, y), (x + w, y + h), 255, -1)` (inpainter.py:54):
both corner pixels inclusive, with the two corners normalised in either
order, as OpenCV does.  `b = (x, y, w, h)`, `i` is the row, `j` the
column. -/
def inRect (b : Int × Int × Int × Int) (i j : Int) : Prop :=
  min b.1 (b.1 + b.2.2.1) ≤ j ∧ j ≤ max b.1 (b.1 + b.2.2.1) ∧
  min b.2.1 (b.2.1 + b.2.2.2) ≤ i ∧ i ≤ max b.2.1 (b.2.1 + b.2.2.2)

instance (b : Int × Int × Int × Int) (i j : Int) : Decidable (inRect b i j) := by
  unfold inRect
  infer_instance

/-- One `cv2.rectangle(..., 255, -1)` call on mask `m`, clipped to the
`(H, W)` image. -/
def fillRect (H W : Nat) (b : Int × Int × Int × Int) (m : Int → Int → Nat) : Int → Int → Nat :=
  fun i j =>
    if 0 ≤ i ∧ i < (H : Int) ∧ 0 ≤ j ∧ j < (W : Int) ∧ inRect b i j then 255 else m i j

/-- The `for bbox in bboxes` fill loop over the all-zero mask
(inpainter.py:49-54). -/
def baseMask (H W : Nat) (bs : List (Int × Int × Int × Int)) : Int → Int → Nat :=
  bs.foldl (fun m b => fillRect H W b m) (fun _ _ => 0)

/-- `cv2.dilate(mask, np.ones((k, k)), iterations=1)` (inpainter.py:58-59):
a pixel of the result is 255 iff some source pixel inside the `k × k`
window anchored at the kernel centre `(k / 2, k / 2)` is 255. -/
def dilateMask (k : Nat) (m : Int → Int → Nat) : Int → Int → Nat :=
  fun i j =>
    if (List.range k).any (fun di => (List.range k).any (fun dj =>
        m (i + (di : Int) - ((k : Int) / 2)) (j + (dj : Int) - ((k : Int) / 2)) == 255))
    then 255 else 0

/-- `Inpainter.create_mask` (inpainter.py:37-61): fill every bbox, then
dilate once iff `self.expand_mask > 0`. -/
def create_mask (H W : Nat) (bs : List (Int × Int × Int × Int)) (expand : Nat) : Int → Int → Nat :=
  if 0 < expand then dilateMask expand (baseMask H W bs) else baseMask H W bs

/-- `Inpainter.remove_text` (inpainter.py:85-108).  `shape` models
`image.shape[:2]` and `inpaintF` models `self.inpaint` (cv2.inpaint with the
configured method and radius); `if not bboxes: return image` is the
short-circuit under scrutiny. -/
def remove_text {α : Type} (shape : α → Nat × Nat)
    (inpaintF : α → (Int → Int → Nat) → α) (expand : Nat)
    (image : α) (bboxes : List (Int × Int × Int × Int)) : α :=
  if bboxes.isEmpty then image
  else inpaintF image (create_mask (shape image).1 (shape image).2 bboxes expand)

/-! ## Text renderer (core/text_renderer.py)

`α` is the BGR image type, `β` the PIL image type, `F` the loaded font type.
Each PIL call that can raise is an `Option`-valued parameter; `none` models
the exception, which the `try`/`except` of `render_text` catches, returning
the input image. -/

/-- Option-valued variant of the fitter loop: the measurement itself (a
`load_font` plus `getbbox`) may raise, and the exception propagates out of
`find_optimal_font_size` into the caller's handler. -/
def fitLoopO (measure : Int → Option (Int × Int)) (maxW maxH l r best : Int) : Option Int :=
  if _hlr : l ≤ r then
    match measure ((l + r) / 2) with
    | none => none
    | some wh =>
      if wh.1 ≤ maxW ∧ wh.2 ≤ maxH then
        fitLoopO measure maxW maxH ((l + r) / 2 + 1) r ((l + r) / 2)
      else
        fitLoopO measure maxW maxH l ((l + r) / 2 - 1) best
  else some best
termination_by (r + 1 - l).toNat
decreasing_by all_goals omega

/-- Measuring a candidate size inside the fitter: load the font at size `s`
(may raise), then take width and height from `font.getbbox(text)`
(font_manager.py:118-123). -/
def measureViaFont {F : Type} (loadAt : Int → Option F)
    (bboxOf : F → Int × Int × Int × Int) : Int → Option (Int × Int) :=
  fun s =>
    match loadAt s with
    | none => none
    | some f => some ((bboxOf f).2.2.1 - (bboxOf f).1, (bboxOf f).2.2.2 - (bboxOf f).2.1)

/-- The body of the `try` block of `TextRenderer.render_text`
(text_renderer.py:52-88): convert to PIL, classify the text and resolve the
font, pick the size (fitter when `auto_scale`, else `min(h, 32)`), load the
font, centre via `(box_dim - text_dim) // 2`, draw, convert back.  `none`
anywhere models a raised exception reaching the `except` handler. -/
def renderBody {α β F : Type} (toPil : α → Option β)
    (loadFontF : String → Int → Option F)
    (getbboxF : F → String → Int × Int × Int × Int)
    (drawF : β → Int × Int → String → F → Nat × Nat × Nat → Option β)
    (toBgr : β → Option α)
    (pathExistsF : String → Bool) (autoScale : Bool)
    (image : α) (text : String) (bbox : Int × Int × Int × Int)
    (color : Nat × Nat × Nat) (style : String) : Option α :=
  match toPil image with
  | none => none
  | some pil =>
    let fontPath := renderFontPath pathExistsF style text
    let sizeRes : Option Int :=
      if autoScale then
        fitLoopO (measureViaFont (loadFontF fontPath) (fun f => getbboxF f text))
          bbox.2.2.1 bbox.2.2.2 8 200 8
      else some (min bbox.2.2.2 32)
    match sizeRes with
    | none => none
    | some size =>
      match loadFontF fontPath size with
      | none => none
      | some font =>
        let bb := getbboxF font text
        let tx := bbox.1 + (bbox.2.2.1 - (bb.2.2.1 - bb.1)) / 2
        let ty := bbox.2.1 + (bbox.2.2.2 - (bb.2.2.2 - bb.2.1)) / 2
        match drawF pil (tx, ty) text font color with
        | none => none
        | some pil2 => toBgr pil2

/-- `TextRenderer.render_text` (text_renderer.py:31-92): the `try` body,
with `except Exception: return image` (text_renderer.py:90-92). -/
def render_text {α β F : Type} (toPil : α → Option β)
    (loadFontF : String → Int → Option F)
    (getbboxF : F → String → Int × Int × Int × Int)
    (drawF : β → Int × Int → String → F → Nat × Nat × Nat → Option β)
    (toBgr : β → Option α)
    (pathExistsF : String → Bool) (autoScale : Bool)
    (image : α) (text : String) (bbox : Int × Int × Int × Int)
    (color : Nat × Nat × Nat) (style : String) : α :=
  match renderBody toPil loadFontF getbboxF drawF toBgr pathExistsF autoScale
      image text bbox color style with
  | some result => result
  | none => image

/-! ## Pipeline orchestrator (core/pipeline.py) -/

/-- `TranslationPipeline.translate_image` (pipeline.py:42-115) for one image.
`loaded` models `cv2.imread` (with the `None` check raising, pipeline.py:63-65),
`detected` models `self.ocr.detect_text` (`none` = engine fault, re-raised by
the outer handler).  The `if not ocr_results: return image` short-circuit is
pipeline.py:71-73; otherwise the mask/inpaint, translate, render and optional
visualisation stages run in sequence. -/
def translate_image {α R : Type} (loaded : Option α) (detected : Option (List R))
    (getRect : R → Int × Int × Int × Int) (getText : R → String)
    (removeTextF : α → List (Int × Int × Int × Int) → α)
    (translateBatchF : List String → List String)
    (renderTextF : α → String → Int × Int × Int × Int → α)
    (visualize : Bool) (drawRectF : α → Int × Int × Int × Int → α) : Option α :=
  match loaded with
  | none => none
  | some image =>
    match detected with
    | none => none
    | some regions =>
      if regions.isEmpty then some image
      else
        let bboxes := regions.map getRect
        let texts := regions.map getText
        let inpainted := removeTextF image bboxes
        let translated := translateBatchF texts
        let rendered :=
          (bboxes.zip translated).foldl (fun acc bt => renderTextF acc bt.2 bt.1) inpainted
        some (if visualize then bboxes.foldl drawRectF rendered else rendered)

/-! ## Unfolding lemmas for the fitter loop -/

theorem fitLoop_step_fits (measure : Int → Int × Int) (maxW maxH l r best : Int)
    (hlr : l ≤ r) (hf : fitsAt measure maxW maxH ((l + r) / 2)) :
    fitLoop measure maxW maxH l r best =
      ((fitLoop measure maxW maxH ((l + r) / 2 + 1) r ((l + r) / 2)).1,
       (fitLoop measure maxW maxH ((l + r) / 2 + 1) r ((l + r) / 2)).2 + 1) := by
  rw [fitLoop.eq_def, dif_pos hlr, if_pos hf]

theorem fitLoop_step_nofits (measure : Int → Int × Int) (maxW maxH l r best : Int)
    (hlr : l ≤ r) (hf : ¬ fitsAt measure maxW maxH ((l + r) / 2)) :
    fitLoop measure maxW maxH l r best =
      ((fitLoop measure maxW maxH l ((l + r) / 2 - 1) best).1,
       (fitLoop measure maxW maxH l ((l + r) / 2 - 1) best).2 + 1) := by
  rw [fitLoop.eq_def, dif_pos hlr, if_neg hf]

theorem fitLoop_step_stop (measure : Int → Int × Int) (maxW maxH l r best : Int)
    (hlr : ¬ l ≤ r) :
    fitLoop measure maxW maxH l r best = (best, 0) := by
  rw [fitLoop.eq_def, dif_neg hlr]

/-- The loop on the interval `[l, r]` performs at most `⌈log2(len + 1)⌉`
measurement calls, where `len = r + 1 - l` is the interval length: each
iteration costs one call and at least halves the interval. -/
theorem fitLoop_count_le (measure : Int → Int × Int) (maxW maxH : Int) :
    ∀ (n : Nat) (l r best : Int), (r + 1 - l).toNat ≤ n →
      (fitLoop measure maxW maxH l r best).2 ≤ Nat.clog 2 ((r + 1 - l).toNat + 1) := by
  intro n
  induction n with
  | zero =>
    intro l r best hn
    rw [fitLoop_step_stop measure maxW maxH l r best (by omega)]
    exact Nat.zero_le _
  | succ n ih =>
    intro l r best hn
    by_cases hlr : l ≤ r
    · have hclog : Nat.clog 2 ((r + 1 - l).toNat / 2 + 1) + 1 =
          Nat.clog 2 ((r + 1 - l).toNat + 1) := by
        rw [Nat.clog_of_two_le (by norm_num) (by omega : 2 ≤ (r + 1 - l).toNat + 1)]
        congr 2
        omega
      by_cases hf : fitsAt measure maxW maxH ((l + r) / 2)
      · rw [fitLoop_step_fits measure maxW maxH l r best hlr hf]
        have h1 : (r + 1 - ((l + r) / 2 + 1)).toNat ≤ n := by omega
        have h2 := ih ((l + r) / 2 + 1) r ((l + r) / 2) h1
        have h3 : (r + 1 - ((l + r) / 2 + 1)).toNat + 1 ≤ (r + 1 - l).toNat / 2 + 1 := by
          omega
        have h4 := Nat.clog_mono_right 2 h3
        dsimp only
        omega
      · rw [fitLoop_step_nofits measure maxW maxH l r best hlr hf]
        have h1 : ((l + r) / 2 - 1 + 1 - l).toNat ≤ n := by omega
        have h2 := ih l ((l + r) / 2 - 1) best h1
        have h3 : ((l + r) / 2 - 1 + 1 - l).toNat + 1 ≤ (r + 1 - l).toNat / 2 + 1 := by
          omega
        have h4 := Nat.clog_mono_right 2 h3
        dsimp only
        omega
    · rw [fitLoop_step_stop measure maxW maxH l r best hlr]
      exact Nat.zero_le _

/-- Counterexample to claim C9 as stated: with `min_size = max_size = 8`
(a one-element search interval, allowed by the claim's `min_size ≤ max_size`
hypothesis), the loop performs exactly one measurement call, but
`⌈log2(max_size − min_size + 1)⌉ = ⌈log2 1⌉ = 0`, so the claimed bound fails. -/
theorem fit_calls_claim_false :
    ((8 : Int) ≤ 8) ∧
    fitMeasureCalls (fun _ => ((0 : Int), (0 : Int))) 0 0 8 8 = 1 ∧
    Nat.clog 2 ((8 : Int) - 8 + 1).toNat = 0 := by
  refine ⟨le_refl _, ?_, ?_⟩
  · rw [fitMeasureCalls]
    rw [fitLoop_step_fits _ _ _ _ _ _ (by norm_num) (by constructor <;> norm_num)]
    rw [fitLoop_step_stop _ _ _ _ _ _ (by norm_num)]
  · have h1 : ((8 : Int) - 8 + 1).toNat = 1 := by norm_num
    rw [h1]
    exact Nat.clog_of_right_le_one le_rfl 2

/-- Claim C9, amended: for `min_size ≤ max_size`, `find_optimal_font_size`
terminates (it is a total function of this embedding) and performs at most
`⌈log2(max_size − min_size + 2)⌉` measurement calls — equivalently
`⌊log2 n⌋ + 1` for interval length `n = max_size − min_size + 1`.  The
stated bound `⌈log2(max_size − min_size + 1)⌉` is off by one exactly when
the interval length is a power of two (see `fit_calls_claim_false`). -/
theorem fit_calls_le (measure : Int → Int × Int) (maxW maxH minS maxS : Int)
    (h : minS ≤ maxS) :
    fitMeasureCalls measure maxW maxH minS maxS ≤ Nat.clog 2 (maxS - minS + 2).toNat := by
  have hb := fitLoop_count_le measure maxW maxH ((maxS + 1 - minS).toNat) minS maxS minS le_rfl
  have he : (maxS + 1 - minS).toNat + 1 = (maxS - minS + 2).toNat := by omega
  rw [fitMeasureCalls]
  rw [he] at hb
  exact hb

/-- Witness for `Translator.fit_calls_le` at the source's default size range
`[8, 200]`. -/
theorem fit_calls_le_w :
    fitMeasureCalls (fun s => (s, s)) 10 10 8 200 ≤ Nat.clog 2 ((200 : Int) - 8 + 2).toNat :=
  fit_calls_le (fun s => (s, s)) 10 10 8 200 (by norm_num)

/-- What the loop computes when the fit predicate is downward closed:
if nothing in `[l, r]` fits, the initial `best` is returned; if something
fits, the result is the largest fitting size in `[l, r]`. -/
theorem fitLoop_max (measure : Int → Int × Int) (maxW maxH : Int)
    (down : ∀ a b : Int, a ≤ b → fitsAt measure maxW maxH b → fitsAt measure maxW maxH a) :
    ∀ (n : Nat) (l r best : Int), (r + 1 - l).toNat ≤ n →
      ((∀ s : Int, l ≤ s → s ≤ r → ¬ fitsAt measure maxW maxH s) →
        (fitLoop measure maxW maxH l r best).1 = best) ∧
      (∀ s : Int, l ≤ s → s ≤ r → fitsAt measure maxW maxH s →
        fitsAt measure maxW maxH (fitLoop measure maxW maxH l r best).1 ∧
        l ≤ (fitLoop measure maxW maxH l r best).1 ∧
        (fitLoop measure maxW maxH l r best).1 ≤ r ∧
        ∀ t : Int, l ≤ t → t ≤ r → fitsAt measure maxW maxH t →
          t ≤ (fitLoop measure maxW maxH l r best).1) := by
  intro n
  induction n with
  | zero =>
    intro l r best hn
    refine ⟨fun _ => ?_, fun s hs1 hs2 _ => absurd (le_trans hs1 hs2) (by omega)⟩
    rw [fitLoop_step_stop measure maxW maxH l r best (by omega)]
  | succ n ih =>
    intro l r best hn
    by_cases hlr : l ≤ r
    · by_cases hf : fitsAt measure maxW maxH ((l + r) / 2)
      · rw [fitLoop_step_fits measure maxW maxH l r best hlr hf]
        dsimp only
        have ihs := ih ((l + r) / 2 + 1) r ((l + r) / 2) (by omega)
        constructor
        · intro hnone
          exact absurd hf (hnone ((l + r) / 2) (by omega) (by omega))
        · intro s hs1 hs2 hsf
          by_cases hex : ∃ t : Int, (l + r) / 2 + 1 ≤ t ∧ t ≤ r ∧ fitsAt measure maxW maxH t
          · obtain ⟨t0, ht1, ht2, ht3⟩ := hex
            obtain ⟨ha, hb, hc, hd⟩ := ihs.2 t0 ht1 ht2 ht3
            refine ⟨ha, by omega, hc, ?_⟩
            intro t htl htr htf
            by_cases htm : (l + r) / 2 + 1 ≤ t
            · exact hd t htm htr htf
            · omega
          · have hbase := ihs.1 (fun t htl htr htf => hex ⟨t, htl, htr, htf⟩)
            rw [hbase]
            refine ⟨hf, by omega, by omega, ?_⟩
            intro t htl htr htf
            by_contra hlt
            exact hex ⟨t, by omega, htr, htf⟩
      · rw [fitLoop_step_nofits measure maxW maxH l r best hlr hf]
        dsimp only
        have ihs := ih l ((l + r) / 2 - 1) best (by omega)
        have hcut : ∀ s : Int, l ≤ s → s ≤ r → fitsAt measure maxW maxH s →
            s ≤ (l + r) / 2 - 1 := by
          intro s hs1 hs2 hsf
          by_contra hgt
          exact hf (down ((l + r) / 2) s (by omega) hsf)
        constructor
        · intro hnone
          exact ihs.1 (fun s hs1 hs2 => hnone s hs1 (by omega))
        · intro s hs1 hs2 hsf
          obtain ⟨ha, hb, hc, hd⟩ := ihs.2 s hs1 (hcut s hs1 hs2 hsf) hsf
          refine ⟨ha, hb, by omega, ?_⟩
          intro t htl htr htf
          exact hd t htl (hcut t htl htr htf) htf
    · refine ⟨fun _ => ?_, fun s hs1 hs2 _ => absurd (le_trans hs1 hs2) hlr⟩
      rw [fitLoop_step_stop measure maxW maxH l r best hlr]

/-- Counterexample to claim C2 as stated: the measured extent is an arbitrary
function of the probed size, and nothing in the source forces it to be
monotone.  With `min_size = 1`, `max_size = 3`, bounds `10 × 10` and a
measurement that fits at sizes 1 and 3 but not at 2, the binary search
discards the upper half after probing the midpoint and returns 1, although 3
is the largest size in range whose measured extent fits (so the
"largest fitting size" clause fails, and the `min_size` fallback clause does
not apply since some size fits). -/
theorem find_optimal_font_size_claim_false :
    find_optimal_font_size
        (fun s => if s = 2 then ((100 : Int), (100 : Int)) else (0, 0)) 10 10 1 3 = 1 ∧
    fitsAt (fun s => if s = 2 then ((100 : Int), (100 : Int)) else (0, 0)) 10 10 3 ∧
    ((1 : Int) < 3) := by
  refine ⟨?_, ?_, by norm_num⟩
  · rw [find_optimal_font_size]
    rw [fitLoop_step_nofits _ _ _ _ _ _ (by norm_num) (by rw [fitsAt]; norm_num)]
    rw [fitLoop_step_fits _ _ _ _ _ _ (by norm_num) (by rw [fitsAt]; norm_num)]
    rw [fitLoop_step_stop _ _ _ _ _ _ (by norm_num)]
    norm_num
  · rw [fitsAt]
    norm_num

/-- Claim C2, amended: `find_optimal_font_size` is total (never raises, given
a total measurement) and, **provided the fit predicate is downward closed in
the size** (any size that fits implies every smaller size fits — the
monotone-metrics case the binary search is designed for), it returns the
largest size in `[min_size, max_size]` whose measured extent fits, or
`min_size` when nothing in range fits; in particular it returns `max_size`
when every size fits (unbounded box) and `min_size` when
`max_width = max_height = 0` and every candidate measures a positive width
or height.  Without downward closure the claim fails
(`find_optimal_font_size_claim_false`); with `max_width = max_height = 0`
and a text measuring `0 × 0` at every size (an empty string) it returns
`max_size`, not `min_size`, which also contradicts the claim as stated. -/
theorem find_optimal_font_size_correct (measure : Int → Int × Int) (maxW maxH minS maxS : Int)
    (down : ∀ a b : Int, a ≤ b → fitsAt measure maxW maxH b → fitsAt measure maxW maxH a) :
    ((∀ s : Int, minS ≤ s → s ≤ maxS → ¬ fitsAt measure maxW maxH s) →
      find_optimal_font_size measure maxW maxH minS maxS = minS) ∧
    (∀ s : Int, minS ≤ s → s ≤ maxS → fitsAt measure maxW maxH s →
      fitsAt measure maxW maxH (find_optimal_font_size measure maxW maxH minS maxS) ∧
      minS ≤ find_optimal_font_size measure maxW maxH minS maxS ∧
      find_optimal_font_size measure maxW maxH minS maxS ≤ maxS ∧
      ∀ t : Int, minS ≤ t → t ≤ maxS → fitsAt measure maxW maxH t →
        t ≤ find_optimal_font_size measure maxW maxH minS maxS) ∧
    (minS ≤ maxS → (∀ s : Int, fitsAt measure maxW maxH s) →
      find_optimal_font_size measure maxW maxH minS maxS = maxS) ∧
    ((∀ s : Int, 0 < (measure s).1 ∨ 0 < (measure s).2) → maxW = 0 → maxH = 0 →
      find_optimal_font_size measure maxW maxH minS maxS = minS) := by
  have hm := fitLoop_max measure maxW maxH down ((maxS + 1 - minS).toNat) minS maxS minS le_rfl
  have hnofit : (∀ s : Int, minS ≤ s → s ≤ maxS → ¬ fitsAt measure maxW maxH s) →
      find_optimal_font_size measure maxW maxH minS maxS = minS := by
    intro hnone
    rw [find_optimal_font_size]
    exact hm.1 hnone
  refine ⟨hnofit, ?_, ?_, ?_⟩
  · intro s hs1 hs2 hsf
    rw [find_optimal_font_size]
    exact hm.2 s hs1 hs2 hsf
  · intro hle hall
    have h := hm.2 maxS hle le_rfl (hall maxS)
    rw [find_optimal_font_size]
    exact le_antisymm h.2.2.1 (h.2.2.2 maxS hle le_rfl (hall maxS))
  · intro hpos hw hz
    refine hnofit ?_
    intro s _ _ hsf
    rcases hpos s with hp | hp
    · rw [fitsAt, hw] at hsf
      omega
    · rw [fitsAt, hz] at hsf
      omega

/-- Witness for `Translator.find_optimal_font_size_correct`: a monotone
measurement `s ↦ (s, s)` in a `10 × 10` box over sizes `[1, 20]`; the result
fits, lies in range, and dominates every fitting size. -/
theorem find_optimal_font_size_correct_w :
    fitsAt (fun s : Int => (s, s)) 10 10 (find_optimal_font_size (fun s : Int => (s, s)) 10 10 1 20) ∧
    (1 : Int) ≤ find_optimal_font_size (fun s : Int => (s, s)) 10 10 1 20 ∧
    find_optimal_font_size (fun s : Int => (s, s)) 10 10 1 20 ≤ 20 := by
  have h := (find_optimal_font_size_correct (fun s : Int => (s, s)) 10 10 1 20
      (fun a b hab hb => ⟨le_trans hab hb.1, le_trans hab hb.2⟩)).2.1
      1 le_rfl (by norm_num) (by rw [fitsAt]; norm_num)
  exact ⟨h.1, h.2.1, h.2.2.1⟩

/-! ## Mask-builder lemmas -/

/-- The rectangle-fill fold evaluated pointwise: a pixel is set to 255 iff it
is inside the image and inside some rectangle of the list, and is otherwise
left at the initial mask's value. -/
theorem fillFold_apply (H W : Nat) (bs : List (Int × Int × Int × Int)) :
    ∀ (m0 : Int → Int → Nat) (i j : Int),
      bs.foldl (fun m b => fillRect H W b m) m0 i j =
        if (0 ≤ i ∧ i < (H : Int) ∧ 0 ≤ j ∧ j < (W : Int)) ∧ ∃ b ∈ bs, inRect b i j
        then 255 else m0 i j := by
  induction bs with
  | nil =>
    intro m0 i j
    simp
  | cons b bs ih =>
    intro m0 i j
    rw [List.foldl_cons, ih]
    by_cases hin : 0 ≤ i ∧ i < (H : Int) ∧ 0 ≤ j ∧ j < (W : Int)
    · by_cases hex : ∃ x ∈ bs, inRect x i j
      · simp [hin, hex]
      · by_cases hb : inRect b i j
        · simp [fillRect, hin, hex, hb, hin.1, hin.2.1, hin.2.2.1, hin.2.2.2]
        · simp [fillRect, hin, hex, hb, hin.1, hin.2.1, hin.2.2.1, hin.2.2.2]
    · have hnot : ¬ ((0 ≤ i ∧ i < (H : Int) ∧ 0 ≤ j ∧ j < (W : Int)) ∧ ∃ x ∈ bs, inRect x i j) :=
        fun hc => hin hc.1
      have hnot2 : ¬ ((0 ≤ i ∧ i < (H : Int) ∧ 0 ≤ j ∧ j < (W : Int)) ∧
          ∃ x ∈ b :: bs, inRect x i j) := fun hc => hin hc.1
      rw [if_neg hnot, if_neg hnot2, fillRect]
      rw [if_neg (fun hc => hin ⟨hc.1, hc.2.1, hc.2.2.1, hc.2.2.2.1⟩)]

/-- `baseMask` evaluated pointwise. -/
theorem baseMask_eq (H W : Nat) (bs : List (Int × Int × Int × Int)) (i j : Int) :
    baseMask H W bs i j =
      if (0 ≤ i ∧ i < (H : Int) ∧ 0 ≤ j ∧ j < (W : Int)) ∧ ∃ b ∈ bs, inRect b i j
      then 255 else 0 :=
  fillFold_apply H W bs (fun _ _ => 0) i j

/-- Claim C4: with `expand_mask = 0` the mask is exactly the pixel union of
the rectangles — an in-image pixel is 255 iff it lies in some rectangle of
the list and 0 otherwise — and with an empty rectangle list the mask is
all-zero for every `expand_mask` value. -/
theorem create_mask_union (H W : Nat) (bs : List (Int × Int × Int × Int)) (i j : Int)
    (hi0 : 0 ≤ i) (hiH : i < (H : Int)) (hj0 : 0 ≤ j) (hjW : j < (W : Int)) :
    (create_mask H W bs 0 i j = if ∃ b ∈ bs, inRect b i j then 255 else 0) ∧
    ∀ (k : Nat) (r c : Int), create_mask H W [] k r c = 0 := by
  constructor
  · rw [create_mask, if_neg (by norm_num), baseMask_eq]
    by_cases hex : ∃ b ∈ bs, inRect b i j
    · rw [if_pos ⟨⟨hi0, hiH, hj0, hjW⟩, hex⟩, if_pos hex]
    · rw [if_neg (fun hc => hex hc.2), if_neg hex]
  · intro k r c
    have hz : baseMask H W ([] : List (Int × Int × Int × Int)) r c = 0 := by
      rw [baseMask_eq]
      simp
    rw [create_mask]
    by_cases hk : 0 < k
    · rw [if_pos hk, dilateMask]
      have hany : ∀ x ∈ List.range k, ¬ ((List.range k).any (fun dj =>
          baseMask H W [] (r + (x : Int) - ((k : Int) / 2))
            (c + (dj : Int) - ((k : Int) / 2)) == 255) = true) := by
        intro x _ hc
        rw [List.any_eq_true] at hc
        obtain ⟨y, _, hy⟩ := hc
        rw [baseMask_eq] at hy
        simp at hy
      rw [if_neg]
      intro hc
      rw [List.any_eq_true] at hc
      obtain ⟨x, hx, hxx⟩ := hc
      exact hany x hx hxx
    · rw [if_neg hk]
      exact hz

/-- Witness for `Translator.create_mask_union` on a 2 × 2 image with a single
bbox `(0, 0, 1, 0)`. -/
theorem create_mask_union_w :
    create_mask 2 2 ([(0, 0, 1, 0)] : List (Int × Int × Int × Int)) 0 0 0 =
      if ∃ b ∈ ([(0, 0, 1, 0)] : List (Int × Int × Int × Int)), inRect b 0 0
      then (255 : Nat) else 0 :=
  (create_mask_union 2 2 ([(0, 0, 1, 0)] : List (Int × Int × Int × Int)) 0 0
    (by norm_num) (by norm_num) (by norm_num) (by norm_num)).1

/-- Claim C5: for every `expand_mask` value `k ≥ 0` the nonzero pixels of the
dilated mask are a superset of the nonzero pixels of the undilated mask: the
`k × k` all-ones structuring element contains its own anchor, so dilation
can only turn pixels on. -/
theorem create_mask_monotone (H W : Nat) (bs : List (Int × Int × Int × Int)) (k : Nat)
    (i j : Int) (h : create_mask H W bs 0 i j ≠ 0) :
    create_mask H W bs k i j ≠ 0 := by
  have hbase : baseMask H W bs i j = 255 := by
    rw [create_mask, if_neg (by norm_num)] at h
    rw [baseMask_eq] at h ⊢
    by_cases hc : (0 ≤ i ∧ i < (H : Int) ∧ 0 ≤ j ∧ j < (W : Int)) ∧ ∃ b ∈ bs, inRect b i j
    · rw [if_pos hc]
    · rw [if_neg hc] at h
      exact absurd rfl h
  rw [create_mask]
  by_cases hk : 0 < k
  · rw [if_pos hk, dilateMask]
    have hwin : (List.range k).any (fun di => (List.range k).any (fun dj =>
        baseMask H W bs (i + (di : Int) - ((k : Int) / 2))
          (j + (dj : Int) - ((k : Int) / 2)) == 255)) = true := by
      rw [List.any_eq_true]
      refine ⟨k / 2, List.mem_range.mpr (Nat.div_lt_self hk (by norm_num)), ?_⟩
      rw [List.any_eq_true]
      refine ⟨k / 2, List.mem_range.mpr (Nat.div_lt_self hk (by norm_num)), ?_⟩
      have hci : i + ((k / 2 : Nat) : Int) - ((k : Int) / 2) = i := by omega
      have hcj : j + ((k / 2 : Nat) : Int) - ((k : Int) / 2) = j := by omega
      rw [hci, hcj, hbase]
      norm_num
    rw [if_pos hwin]
    norm_num
  · rw [if_neg hk, hbase]
    norm_num

/-- Witness for `Translator.create_mask_monotone` on a 3 × 3 image, one bbox,
`expand_mask = 2`. -/
theorem create_mask_monotone_w :
    create_mask 3 3 [((0 : Int), 0, 1, 1)] 2 0 0 ≠ 0 :=
  create_mask_monotone 3 3 [((0 : Int), 0, 1, 1)] 2 0 0 (by decide)

/-- Claim C6: `remove_text` on an empty region list returns the input image
itself, unchanged and without invoking the inpainter. -/
theorem remove_text_empty {α : Type} (shape : α → Nat × Nat)
    (inpaintF : α → (Int → Int → Nat) → α) (expand : Nat) (image : α) :
    remove_text shape inpaintF expand image [] = image := by
  rw [remove_text]
  rfl

/-- Claim C1: `translate_batch` returns a list of the same length in the same
order; the i-th result is `translate` of the i-th input, which is either the
backend's successful translation of that entry or exactly the original entry
(whitespace pass-through, or backend failure caught inside `translate`); a
per-entry failure never escapes, merges or drops entries. -/
theorem translate_batch_spec (backend : String → Option String) (xs : List String) :
    (translate_batch backend xs).length = xs.length ∧
    ∀ (i : Nat) (x : String), xs.get? i = some x →
      (translate_batch backend xs).get? i = some (translate backend x) ∧
      (translate backend x = x ∨ backend x = some (translate backend x)) := by
  refine ⟨by rw [translate_batch, List.length_map], ?_⟩
  intro i x hx
  constructor
  · rw [List.get?_eq_getElem?] at hx ⊢
    rw [translate_batch, List.getElem?_map]
    rw [List.getElem?_eq_some] at hx
    obtain ⟨hlt, hval⟩ := hx
    rw [List.getElem?_eq_getElem hlt, hval]
    rfl
  · rw [translate]
    by_cases hb : pyStrBlank x
    · rw [if_pos hb]
      exact Or.inl rfl
    · rw [if_neg hb]
      cases hbe : backend x with
      | none => exact Or.inl rfl
      | some t => exact Or.inr rfl

/-- Witness for `Translator.translate_batch_spec` with a failing backend on a
one-element batch: the entry falls back to its original text. -/
theorem translate_batch_spec_w :
    (translate_batch (fun _ => none) ["a"]).length = 1 ∧
    (translate_batch (fun _ => none) ["a"]).get? 0 = some "a" := by
  have h := translate_batch_spec (fun _ => none) ["a"]
  refine ⟨h.1, ?_⟩
  have h2 := (h.2 0 "a" rfl).1
  rw [h2]
  rfl

/-- Claim C3: in the renderer's font resolution (default style `'modern'`,
with the PingFang file present), a text containing a codepoint in
U+4E00–U+9FFF resolves to one of the configured Han-capable font files, and
a text containing none resolves to the default PingFang path (macOS's
default UI font, which also covers Latin).  Both branches in fact resolve to
the same `PingFang.ttc` file, since both the `pingfang_sc` and the
`pingfang_tc` key map to it. -/
theorem render_font_selection (text : String) (pathExistsF : String → Bool)
    (hpf : pathExistsF pingfangPath = true) :
    (containsHan text = true →
      renderFontPath pathExistsF "modern" text ∈
        [pingfangPath, heitiPath, songtiPath, kaitiPath]) ∧
    (containsHan text = false → renderFontPath pathExistsF "modern" text = pingfangPath) := by
  have hsc : resolvedFontPath "modern" true = pingfangPath := by decide
  have htc : resolvedFontPath "modern" false = pingfangPath := by decide
  constructor
  · intro hc
    rw [renderFontPath, hc, get_font_path, hsc, hpf]
    decide
  · intro hc
    rw [renderFontPath, hc, get_font_path, htc, hpf]
    decide

/-- Witness for `Translator.render_font_selection`: a Latin-only text and a
Han text, all font files present. -/
theorem render_font_selection_w :
    renderFontPath (fun _ => true) "modern" "Hello" = pingfangPath ∧
    renderFontPath (fun _ => true) "modern" "你好" ∈
      [pingfangPath, heitiPath, songtiPath, kaitiPath] :=
  ⟨(render_font_selection "Hello" (fun _ => true) rfl).2 (by decide),
   (render_font_selection "你好" (fun _ => true) rfl).1 (by decide)⟩

/-- Claim C10: `get_font_path` is total over arbitrary style strings and
either flag — it always returns one of the configured font files (so it
never raises); an unrecognized style resolves through the `pingfang_sc` key
(the simplified-Han sans-serif path), subject only to the existence check;
and whenever the file at the resolved path is missing it returns the
`heiti` path instead of raising. -/
theorem get_font_path_total (pathExistsF : String → Bool) (style : String) (simplified : Bool) :
    get_font_path pathExistsF style simplified ∈
      [pingfangPath, heitiPath, songtiPath, kaitiPath] ∧
    (style ∉ (["modern", "sans", "serif", "script"] : List String) →
      get_font_path pathExistsF style simplified =
        if pathExistsF pingfangPath then pingfangPath else heitiPath) ∧
    (pathExistsF (resolvedFontPath style simplified) = false →
      get_font_path pathExistsF style simplified = heitiPath) := by
  have hres : resolvedFontPath style simplified ∈
      [pingfangPath, heitiPath, songtiPath, kaitiPath] := by
    rw [resolvedFontPath, fontKeyFor]
    split_ifs <;> decide
  refine ⟨?_, ?_, ?_⟩
  · rw [get_font_path]
    by_cases hex : pathExistsF (resolvedFontPath style simplified)
    · rw [if_pos hex]
      exact hres
    · rw [if_neg hex]
      decide
  · intro hs
    have h1 : ¬ (style = "modern" ∨ style = "sans") := by
      rintro (h | h) <;> simp [h] at hs
    have h2 : ¬ style = "serif" := by
      intro h
      simp [h] at hs
    have h3 : ¬ style = "script" := by
      intro h
      simp [h] at hs
    have hkey : resolvedFontPath style simplified = pingfangPath := by
      rw [resolvedFontPath, fontKeyFor, if_neg h1, if_neg h2, if_neg h3]
      decide
    rw [get_font_path, hkey]
  · intro hex
    rw [get_font_path, hex]
    norm_num

/-- Witness for `Translator.get_font_path_total`: an unrecognized style with
no font file present falls back to the `heiti` path, one of the configured
paths. -/
theorem get_font_path_total_w :
    get_font_path (fun _ => false) "gothic" true = heitiPath ∧
    get_font_path (fun _ => false) "gothic" true ∈
      [pingfangPath, heitiPath, songtiPath, kaitiPath] := by
  have h := get_font_path_total (fun _ => false) "gothic" true
  exact ⟨h.2.2 rfl, h.1⟩

/-- Claim C7: any fault inside the `try` body of `render_text` (modelled by
the body evaluating to `none`) is caught locally and `render_text` returns
the input image unmodified for that call; since the embedding is a total
function, no fault propagates to the caller. -/
theorem render_text_fault_returns_input {α β F : Type} (toPil : α → Option β)
    (loadFontF : String → Int → Option F)
    (getbboxF : F → String → Int × Int × Int × Int)
    (drawF : β → Int × Int → String → F → Nat × Nat × Nat → Option β)
    (toBgr : β → Option α) (pathExistsF : String → Bool) (autoScale : Bool)
    (image : α) (text : String) (bbox : Int × Int × Int × Int)
    (color : Nat × Nat × Nat) (style : String)
    (h : renderBody toPil loadFontF getbboxF drawF toBgr pathExistsF autoScale
        image text bbox color style = none) :
    render_text toPil loadFontF getbboxF drawF toBgr pathExistsF autoScale
      image text bbox color style = image := by
  rw [render_text, h]

/-- Witness for `Translator.render_text_fault_returns_input`: the very first
stage (conversion to a PIL image) fails, and the call returns the input
image `7`. -/
theorem render_text_fault_returns_input_w :
    render_text (fun _ : Nat => (none : Option Nat)) (fun _ _ => (none : Option Nat))
      (fun _ _ => ((0 : Int), 0, 0, 0)) (fun _ _ _ _ _ => none) (fun _ => none)
      (fun _ => true) true 7 "hi" (0, 0, 5, 5) (0, 0, 0) "modern" = 7 :=
  render_text_fault_returns_input _ _ _ _ _ _ _ _ _ _ _ _ rfl

/-- Claim C8: when detection yields zero regions, `translate_image` returns
the loaded image unchanged; the result does not depend on the inpainting,
translation, rendering or visualisation stages, which are therefore never
consulted. -/
theorem translate_image_no_regions {α R : Type} (image : α)
    (getRect : R → Int × Int × Int × Int) (getText : R → String)
    (removeTextF : α → List (Int × Int × Int × Int) → α)
    (translateBatchF : List String → List String)
    (renderTextF : α → String → Int × Int × Int × Int → α)
    (visualize : Bool) (drawRectF : α → Int × Int × Int × Int → α) :
    translate_image (some image) (some ([] : List R)) getRect getText removeTextF
      translateBatchF renderTextF visualize drawRectF = some image :=
  rfl

end Translator
